import Mathlib

/-!
# Verification of the blockchat multi-network orchestration core

Shallow embedding of the m4xshen/blockchat server core:

* the amount/unit codec (human decimal strings ↔ integer base units),
* the read-client cache (`getPublicClient` in `core/services/clients.ts`),
* the bridge pipeline of the `bridge_native_eth_across` tool
  (`core/tools.ts`), in particular its promise-settling progress observer,
* the swap pipeline of the `swap_tokens_1inch` tool (`core/tools.ts`),
* private-key normalization (`core/config.ts`, `core/services/transfer.ts`,
  and the tool handlers).

Pure data is embedded as plain Lean functions; the stateful client cache is
embedded as explicit state passing; the effectful pipelines are embedded as
functions from an environment (the outcomes of the external collaborators:
RPC provider, Across SDK, 1inch HTTP API) to an outcome plus a trace of the
observable effects (HTTP calls, delays, transaction submissions).
-/

namespace BlockChat

/-! ## Amount/unit codec

Modelled from the spec: the repository converts amounts with `parseUnits`,
`parseEther` and `formatUnits` from the external `viem` library, whose source
is not under `src/`; `toBaseUnits`/`toHumanUnits` below follow spec §4.4:
`toBaseUnits` parses a decimal string and fails if it is non-numeric,
negative, or has more fractional digits than `decimals`; `toHumanUnits`
formats a non-negative integer, trimming trailing zero padding. -/

/-- `c` is an ASCII digit `'0'`..`'9'`. -/
def isDigitC (c : Char) : Bool := 48 ≤ c.toNat && c.toNat ≤ 57

/-- Numeric value of an ASCII digit character. -/
def digitVal (c : Char) : Nat := c.toNat - 48

/-- ASCII digit character of a digit value. -/
def digitChar (d : Nat) : Char := Char.ofNat (48 + d)

/-- Value of a big-endian list of decimal digits. -/
def ofDigits (l : List Nat) : Nat := l.foldl (fun a d => 10 * a + d) 0

/-- Split a character list into integer-part and fractional-part digit
values: at most one `'.'`, every other character a digit, at least one
digit present.  A leading `'-'` (or any other non-digit) fails. -/
def parseDecimalChars (cs : List Char) : Option (List Nat × List Nat) :=
  match cs.dropWhile (fun c => c != '.') with
  | [] =>
    if !cs.isEmpty && cs.all isDigitC then some (cs.map digitVal, []) else none
  | _ :: frac =>
    if (!(cs.takeWhile (fun c => c != '.')).isEmpty || !frac.isEmpty)
        && (cs.takeWhile (fun c => c != '.')).all isDigitC
        && frac.all isDigitC then
      some ((cs.takeWhile (fun c => c != '.')).map digitVal, frac.map digitVal)
    else none

/-- Modelled from the spec: `toBaseUnits(humanAmount, decimals)` (§4.4),
the conversion the repository delegates to `viem`'s `parseUnits`.
Parses a decimal string and fails on non-numeric or negative input or when
more than `decimals` fractional digits are supplied; otherwise returns the
exact base-unit integer. -/
def toBaseUnits (s : String) (decimals : Nat) : Option Nat :=
  match parseDecimalChars s.toList with
  | none => none
  | some (i, f) =>
    if f.length ≤ decimals then
      some (ofDigits i * 10 ^ decimals + ofDigits f * 10 ^ (decimals - f.length))
    else none

/-- Fuel-driven helper for `natDigits`, structurally recursive so that
concrete inputs evaluate by kernel reduction. -/
def natDigitsAux : Nat → Nat → List Nat
  | 0, _ => []
  | fuel + 1, n => if n = 0 then [] else natDigitsAux fuel (n / 10) ++ [n % 10]

/-- Big-endian decimal digits of `n` (`[]` for `0`). -/
def natDigits (n : Nat) : List Nat := natDigitsAux n n

/-- Drop trailing zero digits. -/
def trimTrailingZeros (l : List Nat) : List Nat :=
  (l.reverse.dropWhile (fun d => d == 0)).reverse

/-- Left-pad a digit list with zeros up to width `d`. -/
def padZeros (d : Nat) (l : List Nat) : List Nat :=
  List.replicate (d - l.length) 0 ++ l

/-- Render a digit list as characters, `"0"` when empty. -/
def renderNat (l : List Nat) : List Char :=
  if l.isEmpty then ['0'] else l.map digitChar

/-- Modelled from the spec: `toHumanUnits(raw, decimals)` (§4.4), the
formatting the repository delegates to `viem`'s `formatUnits`: quotient by
`10 ^ decimals` as the integer part, remainder zero-padded to `decimals`
digits with trailing zeros trimmed as the fractional part. -/
def toHumanUnits (raw : Nat) (decimals : Nat) : String :=
  let q := raw / 10 ^ decimals
  let fr := trimTrailingZeros (padZeros decimals (natDigits (raw % 10 ^ decimals)))
  if fr.isEmpty then ⟨renderNat (natDigits q)⟩
  else ⟨renderNat (natDigits q) ++ '.' :: fr.map digitChar⟩

/-- Canonical form of a valid decimal string, following the spec's words:
integer part with leading zeros stripped (`"0"` when empty), fractional
part with trailing zeros stripped, joined by `'.'` when the latter is
non-empty.  Invalid strings are returned unchanged. -/
def canonicalForm (s : String) : String :=
  match parseDecimalChars s.toList with
  | none => s
  | some (i, f) =>
    let i' := i.dropWhile (fun d => d == 0)
    let f' := trimTrailingZeros f
    if f'.isEmpty then ⟨renderNat i'⟩
    else ⟨renderNat i' ++ '.' :: f'.map digitChar⟩

/-! ## Network registry

Modelled from the spec: `chains.ts` (`getChain`, `getRpcUrl`) is imported by
`core/tools.ts` and `core/services/clients.ts` but is not under `src/`.
Per spec §4.1 the registry is a pure lookup accepting a well-known name or a
numeric chain id (as a numeric string at the string call sites), failing on
any other identifier.  The four chains are the ones the repository
configures for the Across client (`mainnet, optimism, arbitrum, base`). -/

structure ChainDesc where
  name : String
  id : Nat
  rpcUrl : String
deriving DecidableEq, Repr

def mainnetC : ChainDesc := ⟨"ethereum", 1, "https://cloudflare-eth.com"⟩

def optimismC : ChainDesc := ⟨"optimism", 10, "https://mainnet.optimism.io"⟩

def arbitrumC : ChainDesc := ⟨"arbitrum", 42161, "https://arb1.arbitrum.io/rpc"⟩

def baseC : ChainDesc := ⟨"base", 8453, "https://mainnet.base.org"⟩

def supportedChains : List ChainDesc := [mainnetC, optimismC, arbitrumC, baseC]

/-- Decimal rendering of a chain id, used to accept numeric-string
identifiers. -/
def chainIdString (c : ChainDesc) : String := ⟨renderNat (natDigits c.id)⟩

/-- Modelled from the spec: `getChain` of `chains.ts` (§4.1). -/
def getChain (network : String) : Option ChainDesc :=
  supportedChains.find? (fun c => c.name == network || chainIdString c == network)

/-- Modelled from the spec: `getRpcUrl` of `chains.ts` (§4.1/§2). -/
def getRpcUrl (network : String) : Option String :=
  (getChain network).map (fun c => c.rpcUrl)

/-- The canonical key of a network identifier: the resolved network's
well-known name (spec §4.2's "resolved network's canonical key"). -/
def canonicalKey (network : String) : Option String :=
  (getChain network).map (fun c => c.name)

/-! ## Client cache (from `clients.ts`)

`getPublicClient` keeps a module-level `Map<string, PublicClient>`; here the
map is threaded explicitly as `ClientCacheState`.  A constructed handle
carries a construction sequence number `cid` so that "the second call
constructs nothing new" is expressible: handles built by different
constructions are distinguishable. -/

structure PublicClientH where
  chain : ChainDesc
  rpcUrl : String
  cid : Nat
deriving DecidableEq, Repr

structure ClientCacheState where
  cache : List (String × PublicClientH)
  nextId : Nat
deriving DecidableEq, Repr

def emptyCache : ClientCacheState := ⟨[], 0⟩

def cacheFind (st : ClientCacheState) (k : String) : Option PublicClientH :=
  (st.cache.find? (fun kv => kv.1 == k)).map (fun kv => kv.2)

/-- From `clients.ts` `getPublicClient`: `cacheKey = String(network)` (the
call-site string itself); return the cached client if present; otherwise
look up chain and RPC URL and construct a new client, store it under
`cacheKey` and return it.  A registry lookup failure surfaces as an error
(`NetworkInitError`, spec §4.2/§7) before anything is stored. -/
def getPublicClient (network : String) (st : ClientCacheState) :
    Except String PublicClientH × ClientCacheState :=
  match cacheFind st network with
  | some client => (.ok client, st)
  | none =>
    match getChain network, getRpcUrl network with
    | some chain, some url =>
      (.ok ⟨chain, url, st.nextId⟩,
        ⟨(network, ⟨chain, url, st.nextId⟩) :: st.cache, st.nextId + 1⟩)
    | _, _ => (.error "NetworkInitError", st)

/-! ## Private-key normalization -/

/-- `s.startsWith(p)` on the underlying character lists. -/
def strStartsWith (s p : String) : Bool := p.toList.isPrefixOf s.toList

/-- The `privateKey.startsWith('0x') ? privateKey : '0x' + privateKey`
normalization used (identically) in `config.ts:getPrivateKey`,
`transfer.ts:transferETH/transferERC20/approveERC20`, and the
`bridge_native_eth_across`, `swap_tokens_1inch`,
`get_address_from_private_key` tool handlers. -/
def formattedKey (privateKey : String) : String :=
  if strStartsWith privateKey "0x" then privateKey else "0x" ++ privateKey

/-- From `config.ts` `getPrivateKey`: reads `WALLET_PRIVATE_KEY` (here an
explicit argument), throws when absent, else returns it with the `0x`
prefix ensured. -/
def getPrivateKey (walletPrivateKey : Option String) : Except String String :=
  match walletPrivateKey with
  | none => .error "WALLET_PRIVATE_KEY environment variable is not set. Please add it to your .local.env file."
  | some privateKey =>
    .ok (if strStartsWith privateKey "0x" then privateKey else "0x" ++ privateKey)

/-! ## Bridge pipeline (`bridge_native_eth_across` in `core/tools.ts`)

The handler wraps `acrossClient.executeQuote` in `new Promise((resolve,
reject) => ...)` and settles it from the `onProgress` callback.  Promise
semantics: the first `resolve`/`reject` wins and every later call is a
no-op, embedded as `PromiseState` below.  External outcomes (the Across
quote, the wallet account derivation, the pushed progress events, an
`executeQuote` rejection) are supplied by a `BridgeEnv`. -/

structure BridgeProgress where
  step : String
  status : String
  txHash : Option String
  errMsg : Option String
deriving DecidableEq, Repr

inductive PromiseState where
  | pending
  | resolvedTx (txHash : String)
  | rejectedErr (msg : String)
deriving DecidableEq, Repr

/-- One `onProgress` callback invocation (`core/tools.ts` lines 100–123):
on a pending promise, a `deposit`/`txSuccess` event resolves with the
receipt's transaction hash (rejecting when the receipt carries none); a
`txError`/`error` status rejects; `approve` and `fill` events and pending
statuses only log.  On a settled promise every call is a no-op. -/
def bridgeOnProgress (p : BridgeProgress) (st : PromiseState) : PromiseState :=
  match st with
  | .pending =>
    if p.step == "deposit" && p.status == "txSuccess" then
      match p.txHash with
      | some h => .resolvedTx h
      | none => .rejectedErr "Deposit transaction successful but no transaction hash found."
    else if p.status == "txError" || p.status == "error" then
      .rejectedErr ("Bridging failed at step " ++ p.step)
    else .pending
  | .resolvedTx h => .resolvedTx h
  | .rejectedErr m => .rejectedErr m

/-- The promise state after observing a whole event sequence. -/
def bridgeObserve (events : List BridgeProgress) : PromiseState :=
  events.foldl (fun st p => bridgeOnProgress p st) .pending

/-- An event that settles a pending bridge promise. -/
def settlesB (p : BridgeProgress) : Bool :=
  (p.step == "deposit" && p.status == "txSuccess")
    || p.status == "txError" || p.status == "error"

/-- The WETH address table hard-coded in the handler (mainnet, Optimism,
Arbitrum only). -/
def wethAddress (chainId : Nat) : Option String :=
  if chainId = 1 then some "0xC02aaA39b223FE8D0A0e5C4F27eAD9083C756Cc2"
  else if chainId = 10 then some "0x4200000000000000000000000000000000000006"
  else if chainId = 42161 then some "0x82aF49447D8a07e3bd95BD0d56f35241523fBab1"
  else none

structure BridgeInput where
  originNetwork : String
  destinationNetwork : String
  amountInEth : String
deriving DecidableEq, Repr

structure BridgeEnv where
  walletPrivateKey : Option String
  quoteResult : Except String Nat
  account : String → Option String
  events : List BridgeProgress
  executeErr : Option String

/-- How a `bridge_native_eth_across` call ends.  `errorResult` is a
returned `{content, isError: true}` value; `thrown` is a rejection that
escapes the handler (no structured result is produced by the handler
itself); `noResolution` is a promise that never settles. -/
inductive BridgeOutcome where
  | errorResult (msg : String)
  | success (txHash : String)
  | thrown (msg : String)
  | noResolution
deriving DecidableEq, Repr

/-- Is the outcome a returned `{content, isError: true}` structured result? -/
def BridgeOutcome.isErrorResult : BridgeOutcome → Bool
  | .errorResult _ => true
  | _ => false

/-- Is the outcome a rejection escaping the handler? -/
def BridgeOutcome.isThrown : BridgeOutcome → Bool
  | .thrown _ => true
  | _ => false

/-- The `bridge_native_eth_across` handler (`core/tools.ts` lines 39–129):
env-var check, chain lookups, WETH table lookups, then `await
acrossClient.getQuote(...)` — which has no surrounding try/catch, so a
quote rejection escapes the handler — then the wallet-client account
check, then the promise settled by the progress observer (with
`executeQuote(...).catch(reject)` covering an SDK-level rejection).
Returns the outcome paired with whether `executeQuote` (the deposit
submission) was ever invoked. -/
def bridge_native_eth_across (input : BridgeInput) (env : BridgeEnv) :
    BridgeOutcome × Bool :=
  match env.walletPrivateKey with
  | none => (.errorResult "WALLET_PRIVATE_KEY environment variable is not set.", false)
  | some privateKey =>
    let fk := formattedKey privateKey
    match getChain input.originNetwork with
    | none => (.errorResult ("Unsupported origin network: " ++ input.originNetwork), false)
    | some originChain =>
      match getChain input.destinationNetwork with
      | none => (.errorResult ("Unsupported destination network: " ++ input.destinationNetwork), false)
      | some destinationChain =>
        match wethAddress originChain.id with
        | none => (.errorResult "WETH address not configured for origin chain ID", false)
        | some _ =>
          match wethAddress destinationChain.id with
          | none => (.errorResult "WETH address not configured for destination chain ID", false)
          | some _ =>
            match env.quoteResult with
            | .error e => (.thrown ("Error getting quote: " ++ e), false)
            | .ok _quote =>
              match env.account fk with
              | none => (.errorResult "Failed to initialize wallet client with an account.", false)
              | some _addr =>
                match bridgeObserve env.events with
                | .resolvedTx h => (.success h, true)
                | .rejectedErr m => (.thrown m, true)
                | .pending =>
                  match env.executeErr with
                  | some e => (.thrown ("Error executing quote: " ++ e), true)
                  | none => (.noResolution, true)

/-! ## Swap pipeline (`swap_tokens_1inch` in `core/tools.ts`)

The zod input schema constrains only `slippage`
(`z.number().min(0.01).max(50)`); the token addresses, the amount and the
network are plain strings.  The handler's externally visible effects are
embedded as a trace of `SwapEvent`s: the two 1inch HTTP requests, the
fixed `delay(1100)` wait, and the transaction submission. -/

structure SwapInput where
  fromTokenAddress : String
  toTokenAddress : String
  amount : String
  network : String
  slippage : ℚ
deriving DecidableEq, Repr

/-- The zod schema check the MCP server performs before the handler runs:
only `slippage` is range-constrained; `amount` is accepted as any string. -/
def swapInputSchemaOk (inp : SwapInput) : Bool :=
  decide ((1 : ℚ) / 100 ≤ inp.slippage) && decide (inp.slippage ≤ (50 : ℚ))

structure TxData where
  toAddr : Option String
  callData : Option String
  value : Option String
  gas : Option String
deriving DecidableEq, Repr

structure SwapResponseData where
  tx : Option TxData
  toAmount : String
  toTokenSymbol : Option String
  toTokenDecimals : Option Nat
deriving DecidableEq, Repr

structure SwapEnv where
  oneinchApiKey : Option String
  walletPrivateKey : Option String
  account : String → Option String
  spenderResult : Except String String
  swapResult : Except String SwapResponseData
  sendResult : Except String String

inductive SwapEvent where
  | httpSpender
  | delayMs (ms : Nat)
  | httpSwap
  | sendTransaction
deriving DecidableEq, Repr

inductive SwapOutcome where
  | schemaError
  | errorResult (msg : String)
  | success (txHash : String)
deriving DecidableEq, Repr

/-- JS falsiness of `!txData.to` / `!txData.data`: absent or empty. -/
def strFalsy (s : Option String) : Bool :=
  match s with
  | none => true
  | some v => v == ""

/-- The `swap_tokens_1inch` tool (`core/tools.ts` lines 762–906): schema
validation, env-var checks, chain lookup, wallet account, spender GET
(its own try/catch), the fixed `await delay(1100)`, the swap GET (its own
try/catch), the `tx.to`/`tx.data`/`tx.value` presence check, and the
transaction submission (failures caught by the outer try/catch).  Returns
the outcome paired with the effect trace. -/
def swap_tokens_1inch (inp : SwapInput) (env : SwapEnv) :
    SwapOutcome × List SwapEvent :=
  if swapInputSchemaOk inp then
    match env.oneinchApiKey with
    | none => (.errorResult "Server configuration error: Missing 1inch API key.", [])
    | some _ =>
      match env.walletPrivateKey with
      | none => (.errorResult "Server configuration error: Missing wallet private key.", [])
      | some wpk =>
        match getChain inp.network with
        | none => (.errorResult ("Unsupported network: " ++ inp.network), [])
        | some _chain =>
          match env.account (formattedKey wpk) with
          | none => (.errorResult "Failed to initialize wallet client with an account.", [])
          | some _fromWalletAddress =>
            match env.spenderResult with
            | .error e => (.errorResult ("Error fetching 1inch spender: " ++ e), [.httpSpender])
            | .ok _spender =>
              match env.swapResult with
              | .error e =>
                (.errorResult ("Error fetching swap data from 1inch: " ++ e),
                  [.httpSpender, .delayMs 1100, .httpSwap])
              | .ok respData =>
                match respData.tx with
                | none =>
                  (.errorResult "Invalid swap data received from 1inch (missing tx fields).",
                    [.httpSpender, .delayMs 1100, .httpSwap])
                | some txData =>
                  if strFalsy txData.toAddr || strFalsy txData.callData || txData.value == none then
                    (.errorResult "Invalid swap data received from 1inch (missing tx fields).",
                      [.httpSpender, .delayMs 1100, .httpSwap])
                  else
                    match env.sendResult with
                    | .error e =>
                      (.errorResult ("Swap failed: " ++ e),
                        [.httpSpender, .delayMs 1100, .httpSwap, .sendTransaction])
                    | .ok h =>
                      (.success h,
                        [.httpSpender, .delayMs 1100, .httpSwap, .sendTransaction])
  else (.schemaError, [])

/-- Is a trace event a rate-limit wait? -/
def isDelayEvent (e : SwapEvent) : Bool :=
  match e with
  | .delayMs _ => true
  | _ => false

/-! ## Native transfer (`transfer.ts` `transferETH`) -/

structure TransferEnv where
  resolveAddr : String → Except String String
  sendTx : String → String → Nat → Except String String

/-- From `transfer.ts` `transferETH`: resolve the recipient (ENS service is
external), normalize the key, convert the ether amount to wei
(`parseEther`, i.e. the codec at 18 decimals), and submit.  `sendTx`
receives the formatted key so the embedding is sensitive to it. -/
def transferETH (privateKey : String) (toAddressOrEns : String)
    (amount : String) (env : TransferEnv) : Except String String :=
  match env.resolveAddr toAddressOrEns with
  | .error e => .error e
  | .ok toAddr =>
    let fk := formattedKey privateKey
    match toBaseUnits amount 18 with
    | none => .error "InvalidAmount"
    | some wei => env.sendTx fk toAddr wei

/-! ### natDigits unfolding lemmas -/

theorem natDigitsAux_zeroInput (f : Nat) : natDigitsAux f 0 = [] := by
  cases f <;> rfl

theorem natDigitsAux_congr : ∀ f₁ f₂ n, n ≤ f₁ → n ≤ f₂ →
    natDigitsAux f₁ n = natDigitsAux f₂ n := by
  intro f₁
  induction f₁ with
  | zero =>
    intro f₂ n h₁ _
    have hn : n = 0 := by omega
    subst hn
    rw [natDigitsAux_zeroInput, natDigitsAux_zeroInput]
  | succ f ih =>
    intro f₂ n h₁ h₂
    rcases Nat.eq_zero_or_pos n with rfl | hn
    · rw [natDigitsAux_zeroInput, natDigitsAux_zeroInput]
    · obtain ⟨g, rfl⟩ : ∃ g, f₂ = g + 1 := ⟨f₂ - 1, by omega⟩
      simp only [natDigitsAux, if_neg (by omega : ¬ n = 0)]
      rw [ih g (n / 10) (by omega) (by omega)]

theorem natDigits_zero : natDigits 0 = [] := rfl

theorem natDigits_eq (n : Nat) (h : n ≠ 0) :
    natDigits n = natDigits (n / 10) ++ [n % 10] := by
  obtain ⟨m, rfl⟩ : ∃ m, n = m + 1 := ⟨n - 1, by omega⟩
  show natDigitsAux (m + 1) (m + 1) = _
  simp only [natDigitsAux, if_neg h]
  rw [natDigitsAux_congr m ((m + 1) / 10) ((m + 1) / 10) (by omega) (by omega)]
  rfl

/-! ### Codec lemmas -/

theorem digitVal_lt_ten {c : Char} (h : isDigitC c = true) : digitVal c < 10 := by
  simp only [isDigitC, Bool.and_eq_true, decide_eq_true_eq] at h
  simp only [digitVal]
  omega

theorem foldl_digits_lt : ∀ (l : List Nat) (a : Nat), (∀ x ∈ l, x < 10) →
    l.foldl (fun a d => 10 * a + d) a < (a + 1) * 10 ^ l.length := by
  intro l
  induction l with
  | nil => intro a _; simp
  | cons d ds ih =>
    intro a h
    have hd : d < 10 := h d (List.mem_cons_self d ds)
    have := ih (10 * a + d) (fun x hx => h x (List.mem_cons_of_mem d hx))
    calc (d :: ds).foldl (fun a d => 10 * a + d) a
        = ds.foldl (fun a d => 10 * a + d) (10 * a + d) := rfl
      _ < (10 * a + d + 1) * 10 ^ ds.length := this
      _ ≤ (a + 1) * 10 ^ (d :: ds).length := by
          simp only [List.length_cons, pow_succ]
          nlinarith [Nat.pos_pow_of_pos ds.length (by omega : 0 < 10)]

theorem ofDigits_lt {l : List Nat} (h : ∀ x ∈ l, x < 10) :
    ofDigits l < 10 ^ l.length := by
  simpa [ofDigits] using foldl_digits_lt l 0 h

theorem natDigits_step {a d : Nat} (hd : d < 10) (ha : a ≠ 0) :
    natDigits (10 * a + d) = natDigits a ++ [d] := by
  rw [natDigits_eq (10 * a + d) (by omega)]
  have h₁ : (10 * a + d) / 10 = a := by omega
  have h₂ : (10 * a + d) % 10 = d := by omega
  rw [h₁, h₂]

theorem natDigits_singleton {d : Nat} (hd : d < 10) (h0 : d ≠ 0) :
    natDigits d = [d] := by
  rw [natDigits_eq d h0]
  have h₁ : d / 10 = 0 := by omega
  have h₂ : d % 10 = d := by omega
  rw [h₁, h₂, natDigits_zero, List.nil_append]

theorem natDigits_foldl : ∀ (l : List Nat) (a : Nat), a ≠ 0 →
    (∀ x ∈ l, x < 10) →
    natDigits (l.foldl (fun a d => 10 * a + d) a) = natDigits a ++ l := by
  intro l
  induction l with
  | nil => intro a _ _; simp
  | cons d ds ih =>
    intro a ha h
    have hd : d < 10 := h d (List.mem_cons_self d ds)
    calc natDigits (((d :: ds)).foldl (fun a d => 10 * a + d) a)
        = natDigits (ds.foldl (fun a d => 10 * a + d) (10 * a + d)) := rfl
      _ = natDigits (10 * a + d) ++ ds :=
          ih (10 * a + d) (by omega) (fun x hx => h x (List.mem_cons_of_mem d hx))
      _ = (natDigits a ++ [d]) ++ ds := by rw [natDigits_step hd ha]
      _ = natDigits a ++ d :: ds := by simp

theorem natDigits_ofDigits : ∀ (l : List Nat), (∀ x ∈ l, x < 10) →
    natDigits (ofDigits l) = l.dropWhile (fun x => x == 0) := by
  intro l
  induction l with
  | nil => simp [ofDigits, natDigits_zero]
  | cons d ds ih =>
    intro h
    have hd : d < 10 := h d (List.mem_cons_self d ds)
    by_cases h0 : d = 0
    · subst h0
      have : ofDigits (0 :: ds) = ofDigits ds := by simp [ofDigits]
      rw [this, ih (fun x hx => h x (List.mem_cons_of_mem 0 hx))]
      simp [List.dropWhile]
    · have : ofDigits (d :: ds) = ds.foldl (fun a d => 10 * a + d) d := by
        simp [ofDigits]
      rw [this, natDigits_foldl ds d h0
        (fun x hx => h x (List.mem_cons_of_mem d hx)), natDigits_singleton hd h0]
      simp [List.dropWhile_cons, h0]

theorem foldl_replicate_zero : ∀ (k a : Nat),
    (List.replicate k 0).foldl (fun a d => 10 * a + d) a = a * 10 ^ k := by
  intro k
  induction k with
  | zero => intro a; simp
  | succ n ih =>
    intro a
    calc (List.replicate (n + 1) 0).foldl (fun a d => 10 * a + d) a
        = (List.replicate n 0).foldl (fun a d => 10 * a + d) (10 * a) := by
          simp [List.replicate_succ]
      _ = 10 * a * 10 ^ n := ih (10 * a)
      _ = a * 10 ^ (n + 1) := by ring

theorem ofDigits_append_replicate (l : List Nat) (k : Nat) :
    ofDigits (l ++ List.replicate k 0) = ofDigits l * 10 ^ k := by
  simp only [ofDigits, List.foldl_append]
  exact foldl_replicate_zero k _

theorem takeWhile_zeros_replicate (l : List Nat) :
    l.takeWhile (fun x => x == 0)
      = List.replicate (l.takeWhile (fun x => x == 0)).length 0 := by
  apply List.eq_replicate_of_mem
  intro b hb
  have hz := List.mem_takeWhile_imp hb
  exact beq_iff_eq.mp hz

theorem padZeros_dropWhile (X : List Nat) :
    padZeros X.length (X.dropWhile (fun x => x == 0)) = X := by
  have hsplit := List.takeWhile_append_dropWhile (p := fun x => x == 0) (l := X)
  have hlen := congrArg List.length hsplit
  rw [List.length_append] at hlen
  simp only [padZeros]
  rw [← hlen, Nat.add_sub_cancel, ← takeWhile_zeros_replicate, hsplit]

theorem dropWhile_replicate_zero_append : ∀ (k : Nat) (l : List Nat),
    List.dropWhile (fun x => x == 0) (List.replicate k 0 ++ l)
      = l.dropWhile (fun x => x == 0) := by
  intro k
  induction k with
  | zero => intro l; simp
  | succ n ih => intro l; simp [List.replicate_succ, List.dropWhile, ih]

theorem trimTrailingZeros_append_zeros (l : List Nat) (k : Nat) :
    trimTrailingZeros (l ++ List.replicate k 0) = trimTrailingZeros l := by
  simp only [trimTrailingZeros, List.reverse_append, List.reverse_replicate]
  rw [dropWhile_replicate_zero_append]

theorem parse_digit_bounds {cs : List Char} {i f : List Nat}
    (h : parseDecimalChars cs = some (i, f)) :
    (∀ x ∈ i, x < 10) ∧ (∀ x ∈ f, x < 10) := by
  unfold parseDecimalChars at h
  split at h
  · split at h
    · rename_i hcond
      simp only [Bool.and_eq_true] at hcond
      injection h with h'
      injection h' with hi hf
      subst hi; subst hf
      constructor
      · intro x hx
        obtain ⟨c, hc, rfl⟩ := List.mem_map.mp hx
        exact digitVal_lt_ten (List.all_eq_true.mp hcond.2 c hc)
      · intro x hx
        exact absurd hx (List.not_mem_nil x)
    · exact absurd h (by simp)
  · split at h
    · rename_i hcond
      simp only [Bool.and_eq_true] at hcond
      injection h with h'
      injection h' with hi hf
      subst hi; subst hf
      constructor
      · intro x hx
        obtain ⟨c, hc, rfl⟩ := List.mem_map.mp hx
        exact digitVal_lt_ten (List.all_eq_true.mp hcond.1.2 c hc)
      · intro x hx
        obtain ⟨c, hc, rfl⟩ := List.mem_map.mp hx
        exact digitVal_lt_ten (List.all_eq_true.mp hcond.2 c hc)
    · exact absurd h (by simp)

theorem toBaseUnits_some {s : String} {d v : Nat}
    (h : toBaseUnits s d = some v) :
    ∃ i f, parseDecimalChars s.toList = some (i, f) ∧ f.length ≤ d ∧
      v = ofDigits i * 10 ^ d + ofDigits f * 10 ^ (d - f.length) := by
  unfold toBaseUnits at h
  cases hp : parseDecimalChars s.toList with
  | none => rw [hp] at h; exact absurd h (by simp)
  | some pf =>
    obtain ⟨i, f⟩ := pf
    rw [hp] at h
    dsimp only at h
    by_cases hd : f.length ≤ d
    · rw [if_pos hd] at h
      injection h with hv
      exact ⟨i, f, rfl, hd, hv.symm⟩
    · rw [if_neg hd] at h
      exact absurd h (by simp)

/-- **C2.** For every valid decimal string `s` with at most `decimals`
fractional digits (exactly the strings on which `toBaseUnits` succeeds),
formatting the converted integer back yields the canonical form of `s`:
the codec round trip is lossless. -/
theorem c2_codec_round_trip (s : String) (d v : Nat)
    (h : toBaseUnits s d = some v) :
    toHumanUnits v d = canonicalForm s := by
  obtain ⟨i, f, hp, hd, hv⟩ := toBaseUnits_some h
  obtain ⟨hi, hf⟩ := parse_digit_bounds hp
  set X : List Nat := f ++ List.replicate (d - f.length) 0 with hX
  have hXd : ∀ x ∈ X, x < 10 := by
    intro x hx
    rcases List.mem_append.mp hx with hx | hx
    · exact hf x hx
    · rw [List.eq_of_mem_replicate hx]; omega
  have hXlen : X.length = d := by
    simp only [hX, List.length_append, List.length_replicate]
    omega
  have hb : ofDigits X < 10 ^ d := by
    have := ofDigits_lt hXd
    rwa [hXlen] at this
  have hXval : ofDigits X = ofDigits f * 10 ^ (d - f.length) :=
    ofDigits_append_replicate f (d - f.length)
  have hq : v / 10 ^ d = ofDigits i := by
    rw [hv, ← hXval, mul_comm (ofDigits i), Nat.mul_add_div (by positivity),
      Nat.div_eq_of_lt hb, Nat.add_zero]
  have hr : v % 10 ^ d = ofDigits X := by
    rw [hv, ← hXval, mul_comm (ofDigits i), Nat.mul_add_mod,
      Nat.mod_eq_of_lt hb]
  have hfr : trimTrailingZeros (padZeros d (natDigits (v % 10 ^ d)))
      = trimTrailingZeros f := by
    rw [hr, natDigits_ofDigits X hXd, ← hXlen, padZeros_dropWhile, hX]
    exact trimTrailingZeros_append_zeros f (d - f.length)
  have hint : natDigits (v / 10 ^ d) = i.dropWhile (fun x => x == 0) := by
    rw [hq, natDigits_ofDigits i hi]
  unfold toHumanUnits canonicalForm
  rw [hp]
  simp only [hfr, hint]

/-- Witness for C2 at `s = "1.50"`, `decimals = 2`. -/
theorem c2_codec_round_trip_witness :
    toBaseUnits "1.50" 2 = some 150 ∧ toHumanUnits 150 2 = canonicalForm "1.50" :=
  ⟨by decide, c2_codec_round_trip "1.50" 2 150 (by decide)⟩

theorem dropWhile_head_not {α : Type} {p : α → Bool} :
    ∀ {l : List α} {x : α} {xs : List α}, l.dropWhile p = x :: xs → p x = false := by
  intro l
  induction l with
  | nil => intro x xs h; simp [List.dropWhile] at h
  | cons a as ih =>
    intro x xs h
    rw [List.dropWhile_cons] at h
    cases hpa : p a
    · rw [hpa] at h
      simp only [Bool.false_eq_true, if_false] at h
      injection h with h₁ h₂
      subst h₁
      exact hpa
    · rw [hpa] at h
      simp only [if_true] at h
      exact ih h

theorem parse_chars_valid {cs : List Char} {pr : List Nat × List Nat}
    (h : parseDecimalChars cs = some pr) :
    ∀ c ∈ cs, isDigitC c = true ∨ c = '.' := by
  unfold parseDecimalChars at h
  split at h
  · split at h
    · rename_i hcond
      simp only [Bool.and_eq_true] at hcond
      intro c hc
      exact Or.inl (List.all_eq_true.mp hcond.2 c hc)
    · exact absurd h (by simp)
  · rename_i x hd frac heq
    split at h
    · rename_i hcond
      simp only [Bool.and_eq_true] at hcond
      intro c hc
      have hsplit : cs.takeWhile (fun c => c != '.') ++ (hd :: frac) = cs := by
        rw [← heq]
        exact List.takeWhile_append_dropWhile _ _
      rw [← hsplit] at hc
      rcases List.mem_append.mp hc with hc | hc
      · exact Or.inl (List.all_eq_true.mp hcond.1.2 c hc)
      · rcases List.mem_cons.mp hc with rfl | hc
        · have := dropWhile_head_not heq
          simp only [bne_eq_false_iff_eq] at this
          exact Or.inr this
        · exact Or.inl (List.all_eq_true.mp hcond.2 c hc)
    · exact absurd h (by simp)

/-- **C5.** `toBaseUnits` rejects: (1) any valid decimal string with more
fractional digits than `decimals`; (2) any non-numeric string (one the
decimal parser fails on); (3) any string containing `'-'` (negatives);
and (4) whenever it succeeds, the result is the exact value of the
string — nothing is truncated or rounded. -/
theorem c5_invalid_amount_rejected (s : String) (d : Nat) :
    (∀ i f, parseDecimalChars s.toList = some (i, f) → d < f.length →
      toBaseUnits s d = none)
    ∧ (parseDecimalChars s.toList = none → toBaseUnits s d = none)
    ∧ ('-' ∈ s.toList → toBaseUnits s d = none)
    ∧ (∀ v, toBaseUnits s d = some v →
        ∃ i f, parseDecimalChars s.toList = some (i, f) ∧ f.length ≤ d ∧
          v = ofDigits i * 10 ^ d + ofDigits f * 10 ^ (d - f.length)) := by
  refine ⟨?_, ?_, ?_, ?_⟩
  · intro i f hp hlen
    unfold toBaseUnits
    rw [hp]
    dsimp only
    rw [if_neg (by omega)]
  · intro hp
    unfold toBaseUnits
    rw [hp]
  · intro hmem
    cases hp : parseDecimalChars s.toList with
    | none => unfold toBaseUnits; rw [hp]
    | some pr =>
      have := parse_chars_valid hp '-' hmem
      rcases this with hdig | hdot
      · exact absurd hdig (by decide)
      · exact absurd hdot (by decide)
  · intro v hv
    exact toBaseUnits_some hv

/-- Witness for C5: `"1.234"` with 2 decimals is rejected (overprecision),
and `"-5"` is rejected (negative). -/
theorem c5_invalid_amount_rejected_witness :
    parseDecimalChars "1.234".toList = some ([1], [2, 3, 4])
      ∧ toBaseUnits "1.234" 2 = none
      ∧ '-' ∈ "-5".toList ∧ toBaseUnits "-5" 18 = none :=
  ⟨by decide,
   (c5_invalid_amount_rejected "1.234" 2).1 [1] [2, 3, 4] (by decide) (by decide),
   by decide,
   (c5_invalid_amount_rejected "-5" 18).2.2.1 (by decide)⟩

/-! ### Bridge pipeline lemmas -/

theorem bridgeOnProgress_nonsettling {p : BridgeProgress}
    (h : settlesB p = false) : bridgeOnProgress p .pending = .pending := by
  simp only [settlesB, Bool.or_eq_false_iff] at h
  obtain ⟨⟨hab, hc⟩, hd⟩ := h
  simp [bridgeOnProgress, hab, hc, hd]

theorem bridgeOnProgress_settled (p : BridgeProgress) (st : PromiseState)
    (h : st ≠ .pending) : bridgeOnProgress p st = st := by
  cases st with
  | pending => exact absurd rfl h
  | resolvedTx h' => rfl
  | rejectedErr m => rfl

theorem bridgeFold_settled (l : List BridgeProgress) (st : PromiseState)
    (h : st ≠ .pending) :
    l.foldl (fun st p => bridgeOnProgress p st) st = st := by
  induction l with
  | nil => rfl
  | cons p ps ih => rw [List.foldl_cons, bridgeOnProgress_settled p st h]; exact ih

theorem bridgeFold_nonsettling (l : List BridgeProgress)
    (h : ∀ q ∈ l, settlesB q = false) :
    l.foldl (fun st p => bridgeOnProgress p st) .pending = .pending := by
  induction l with
  | nil => rfl
  | cons p ps ih =>
    rw [List.foldl_cons,
      bridgeOnProgress_nonsettling (h p (List.mem_cons_self p ps))]
    exact ih (fun q hq => h q (List.mem_cons_of_mem p hq))

theorem bridgeObserve_deposit_success (pre post : List BridgeProgress)
    (p : BridgeProgress) (h : String)
    (hpre : ∀ e ∈ pre, settlesB e = false)
    (hstep : p.step = "deposit") (hstat : p.status = "txSuccess")
    (hhash : p.txHash = some h) :
    bridgeObserve (pre ++ p :: post) = .resolvedTx h := by
  unfold bridgeObserve
  rw [List.foldl_append, bridgeFold_nonsettling pre hpre, List.foldl_cons]
  have hp : bridgeOnProgress p .pending = .resolvedTx h := by
    simp [bridgeOnProgress, hstep, hstat, hhash]
  rw [hp]
  exact bridgeFold_settled post _ (by simp)

/-- **C1.** If the environment lets the bridge handler reach its progress
observer (key present, both chains and WETH addresses known, quote
obtained, wallet account derived) and the pushed events are any
non-settling ones followed by a `deposit`/`txSuccess` event carrying a
transaction hash, then the call resolves successfully with that hash and
the deposit was submitted — regardless of what arrives afterwards, in
particular with no `fill` event at all or with `fill` events that are
no-ops on the already-settled promise. -/
theorem c1_bridge_resolves_on_deposit (input : BridgeInput) (env : BridgeEnv)
    (pre post : List BridgeProgress) (p : BridgeProgress) (h : String)
    (k : String) (oc dc : ChainDesc) (q : Nat) (wo wd : String)
    (hkey : env.walletPrivateKey = some k)
    (horig : getChain input.originNetwork = some oc)
    (hdest : getChain input.destinationNetwork = some dc)
    (hwo : wethAddress oc.id = some wo)
    (hwd : wethAddress dc.id = some wd)
    (hquote : env.quoteResult = .ok q)
    (hacct : (env.account (formattedKey k)).isSome = true)
    (hev : env.events = pre ++ p :: post)
    (hpre : ∀ e ∈ pre, settlesB e = false)
    (hstep : p.step = "deposit") (hstat : p.status = "txSuccess")
    (hhash : p.txHash = some h) :
    bridge_native_eth_across input env = (.success h, true) := by
  obtain ⟨addr, haddr⟩ := Option.isSome_iff_exists.mp hacct
  have hobs : bridgeObserve env.events = .resolvedTx h := by
    rw [hev]
    exact bridgeObserve_deposit_success pre post p h hpre hstep hstat hhash
  simp only [bridge_native_eth_across, hkey, horig, hdest, hwo, hwd, hquote,
    haddr, hobs]

/-- Witness for C1: a run whose events are a successful approval, a
successful deposit with hash `"0xbbb"`, then a fill; the call resolves
with `"0xbbb"`. -/
theorem c1_bridge_resolves_on_deposit_witness :
    bridge_native_eth_across ⟨"ethereum", "optimism", "0.1"⟩
      ⟨some "ab", .ok 0, fun _ => some "0xA11CE",
        [⟨"approve", "txSuccess", some "0xaaa", none⟩,
         ⟨"deposit", "txSuccess", some "0xbbb", none⟩,
         ⟨"fill", "txSuccess", some "0xccc", none⟩], none⟩
      = (.success "0xbbb", true) :=
  c1_bridge_resolves_on_deposit _ _
    [⟨"approve", "txSuccess", some "0xaaa", none⟩]
    [⟨"fill", "txSuccess", some "0xccc", none⟩]
    ⟨"deposit", "txSuccess", some "0xbbb", none⟩ "0xbbb"
    "ab" mainnetC optimismC 0
    "0xC02aaA39b223FE8D0A0e5C4F27eAD9083C756Cc2"
    "0x4200000000000000000000000000000000000006"
    rfl (by decide) (by decide) (by decide) (by decide) rfl
    rfl rfl (by decide) rfl rfl rfl

/-- **C3 (amended).** When the Across quote stage fails, no deposit
submission is attempted — but the handler does not resolve to a tagged
error result: the rejection escapes it as an untagged thrown fault,
because `await acrossClient.getQuote(...)` has no surrounding try/catch. -/
theorem c3_quote_failure_throws_without_deposit (input : BridgeInput)
    (env : BridgeEnv) (k e : String) (oc dc : ChainDesc) (wo wd : String)
    (hkey : env.walletPrivateKey = some k)
    (horig : getChain input.originNetwork = some oc)
    (hdest : getChain input.destinationNetwork = some dc)
    (hwo : wethAddress oc.id = some wo)
    (hwd : wethAddress dc.id = some wd)
    (hquote : env.quoteResult = .error e) :
    bridge_native_eth_across input env
      = (.thrown ("Error getting quote: " ++ e), false) := by
  simp only [bridge_native_eth_across, hkey, horig, hdest, hwo, hwd, hquote]

/-- Counterexample to C3 as stated: with a failing quote provider the call
does not resolve to a structured error result at all (it throws), though
indeed no deposit is attempted. -/
theorem c3_counterexample :
    BridgeOutcome.isThrown
      (bridge_native_eth_across ⟨"ethereum", "optimism", "0.1"⟩
        ⟨some "ab", .error "no liquidity route", fun _ => some "0xA11CE",
          [], none⟩).1 = true
    ∧ BridgeOutcome.isErrorResult
      (bridge_native_eth_across ⟨"ethereum", "optimism", "0.1"⟩
        ⟨some "ab", .error "no liquidity route", fun _ => some "0xA11CE",
          [], none⟩).1 = false
    ∧ (bridge_native_eth_across ⟨"ethereum", "optimism", "0.1"⟩
        ⟨some "ab", .error "no liquidity route", fun _ => some "0xA11CE",
          [], none⟩).2 = false :=
  ⟨rfl, rfl, rfl⟩

/-- Witness for the amended C3 at a concrete failing-quote environment. -/
theorem c3_quote_failure_throws_without_deposit_witness :
    bridge_native_eth_across ⟨"ethereum", "optimism", "0.1"⟩
      ⟨some "ab", .error "no liquidity route", fun _ => some "0xA11CE",
        [], none⟩
      = (.thrown ("Error getting quote: " ++ "no liquidity route"), false) :=
  c3_quote_failure_throws_without_deposit _ _ "ab" "no liquidity route"
    mainnetC optimismC
    "0xC02aaA39b223FE8D0A0e5C4F27eAD9083C756Cc2"
    "0x4200000000000000000000000000000000000006"
    rfl (by decide) (by decide) (by decide) (by decide) rfl

/-! ### Client cache theorems -/

/-- **C6 (amended).** A second call with the same identifier returns the
identical memoized handle and leaves the cache (including the
construction counter) untouched, and exactly one entry exists for that
identifier key. -/
theorem c6_second_call_memoized (network : String) (st : ClientCacheState)
    (c : PublicClientH) (s₁ : ClientCacheState)
    (h : getPublicClient network st = (.ok c, s₁)) :
    getPublicClient network s₁ = (.ok c, s₁) ∧ cacheFind s₁ network = some c := by
  unfold getPublicClient at h
  cases hf : cacheFind st network with
  | some c₀ =>
    rw [hf] at h
    dsimp only at h
    injection h with h₁ h₂
    injection h₁ with h₁
    have hfind : cacheFind s₁ network = some c := by rw [← h₂, hf, h₁]
    refine ⟨?_, hfind⟩
    unfold getPublicClient
    rw [hfind]
  | none =>
    rw [hf] at h
    dsimp only at h
    cases hc : getChain network with
    | none =>
      have hu : getRpcUrl network = none := by
        rw [getRpcUrl, hc]; rfl
      rw [hc, hu] at h
      dsimp only at h
      injection h with h₁ h₂
      exact absurd h₁ (by simp)
    | some chain =>
      have hu : getRpcUrl network = some chain.rpcUrl := by
        rw [getRpcUrl, hc]; rfl
      rw [hc, hu] at h
      dsimp only at h
      injection h with h₁ h₂
      injection h₁ with h₁
      have hfind : cacheFind s₁ network = some c := by
        rw [← h₂]
        simp [cacheFind, List.find?, h₁]
      refine ⟨?_, hfind⟩
      unfold getPublicClient
      rw [hfind]

/-- Witness for the amended C6: two `"ethereum"` calls on the empty cache
yield the identical handle and a single entry. -/
theorem c6_second_call_memoized_witness :
    getPublicClient "ethereum" (getPublicClient "ethereum" emptyCache).2
        = (.ok ⟨mainnetC, mainnetC.rpcUrl, 0⟩,
            (getPublicClient "ethereum" emptyCache).2)
      ∧ cacheFind (getPublicClient "ethereum" emptyCache).2 "ethereum"
        = some ⟨mainnetC, mainnetC.rpcUrl, 0⟩ :=
  c6_second_call_memoized "ethereum" emptyCache _ _ rfl

/-- Counterexample to C6 as stated: the handle is stored under the
call-site identifier string (here the numeric alias `"1"`), not under the
resolved network's canonical key `"ethereum"`; a later call with the
canonical name constructs a second handle for the same network. -/
theorem c6_counterexample :
    canonicalKey "1" = some "ethereum"
    ∧ cacheFind (getPublicClient "1" emptyCache).2 "1"
        = some ⟨mainnetC, mainnetC.rpcUrl, 0⟩
    ∧ cacheFind (getPublicClient "1" emptyCache).2 "ethereum" = none
    ∧ ((getPublicClient "ethereum"
        ((getPublicClient "1" emptyCache).2)).2).cache.length = 2 := by
  refine ⟨by decide, by decide, by decide, by decide⟩

/-- **C7.** When the registry lookup behind read-connection construction
fails, the call leaves the cache state unchanged, and on a cache miss it
returns the `NetworkInitError` failure with no entry stored, so a retry
is possible. -/
theorem c7_construction_failure_cache_clean (network : String)
    (st : ClientCacheState) (h : getChain network = none) :
    (getPublicClient network st).2 = st
    ∧ (cacheFind st network = none →
        getPublicClient network st = (.error "NetworkInitError", st)) := by
  have hu : getRpcUrl network = none := by
    rw [getRpcUrl, h]; rfl
  unfold getPublicClient
  cases hf : cacheFind st network with
  | some c₀ => exact ⟨rfl, fun hc => absurd hc (by simp)⟩
  | none =>
    rw [h, hu]
    exact ⟨rfl, fun hc => rfl⟩

/-- Witness for C7 at the unknown identifier `"not-a-chain"`. -/
theorem c7_construction_failure_cache_clean_witness :
    (getPublicClient "not-a-chain" emptyCache).2 = emptyCache
    ∧ getPublicClient "not-a-chain" emptyCache
        = (.error "NetworkInitError", emptyCache) :=
  ⟨(c7_construction_failure_cache_clean "not-a-chain" emptyCache (by decide)).1,
   (c7_construction_failure_cache_clean "not-a-chain" emptyCache
      (by decide)).2 (by decide)⟩

/-! ### Swap pipeline theorems -/

theorem swap_trace_cases (inp : SwapInput) (env : SwapEnv) :
    (swap_tokens_1inch inp env).2 = [] ∨
    (swap_tokens_1inch inp env).2 = [.httpSpender] ∨
    (swap_tokens_1inch inp env).2 = [.httpSpender, .delayMs 1100, .httpSwap] ∨
    (swap_tokens_1inch inp env).2
      = [.httpSpender, .delayMs 1100, .httpSwap, .sendTransaction] := by
  obtain ⟨ok, wk, acct, sp, sw, sr⟩ := env
  unfold swap_tokens_1inch
  by_cases hs : swapInputSchemaOk inp = true
  case neg => rw [if_neg hs]; exact Or.inl rfl
  rw [if_pos hs]
  dsimp only
  cases ok with
  | none => exact Or.inl rfl
  | some ak =>
    dsimp only
    cases wk with
    | none => exact Or.inl rfl
    | some wpk =>
      dsimp only
      cases hch : getChain inp.network with
      | none => exact Or.inl rfl
      | some ch =>
        dsimp only
        cases hac : acct (formattedKey wpk) with
        | none => exact Or.inl rfl
        | some addr =>
          dsimp only
          cases sp with
          | error e => exact Or.inr (Or.inl rfl)
          | ok spender =>
            dsimp only
            cases sw with
            | error e => exact Or.inr (Or.inr (Or.inl rfl))
            | ok resp =>
              dsimp only
              cases htx : resp.tx with
              | none => exact Or.inr (Or.inr (Or.inl rfl))
              | some txd =>
                dsimp only
                by_cases htf : (strFalsy txd.toAddr || strFalsy txd.callData
                    || txd.value == none) = true
                · rw [if_pos htf]
                  exact Or.inr (Or.inr (Or.inl rfl))
                · rw [if_neg htf]
                  cases sr with
                  | error e => exact Or.inr (Or.inr (Or.inr rfl))
                  | ok hsh => exact Or.inr (Or.inr (Or.inr rfl))

/-- **C4 (amended).** A slippage outside the validated 0.01–50 range is
rejected by the zod schema before the handler runs: the call fails with a
schema error and the effect trace is empty (no HTTP call).  The amount,
however, is not validated beyond being a string (see the
counterexample). -/
theorem c4_slippage_rejected_before_http (inp : SwapInput) (env : SwapEnv)
    (h : inp.slippage < 1 / 100 ∨ 50 < inp.slippage) :
    swap_tokens_1inch inp env = (.schemaError, []) := by
  have hbad : swapInputSchemaOk inp = false := by
    simp only [swapInputSchemaOk, Bool.and_eq_false_iff,
      decide_eq_false_iff_not, not_le]
    exact h.imp id id
  unfold swap_tokens_1inch
  rw [if_neg (by simp [hbad])]

/-- Counterexample to C4 as stated: the amount `"0"` passes schema
validation, and the pipeline proceeds to the aggregator HTTP calls
(spender lookup and swap quote) with that amount — it is not rejected
before any HTTP call is made. -/
theorem c4_counterexample :
    swapInputSchemaOk
      ⟨"0xEeeeeEeeeEeEeeEeEeEeeEEEeeeeEeeeeeeeEEeE", "0xToken", "0",
        "ethereum", 1⟩ = true
    ∧ SwapEvent.httpSpender ∈
      (swap_tokens_1inch
        ⟨"0xEeeeeEeeeEeEeeEeEeEeeEEEeeeeEeeeeeeeEEeE", "0xToken", "0",
          "ethereum", 1⟩
        ⟨some "APIKEY", some "ab", fun _ => some "0xA11CE", .ok "0xSpender",
          .ok ⟨some ⟨some "0xDEX", some "0xCALLDATA", some "0", none⟩,
            "123", some "USDC", some 6⟩, .ok "0xHASH"⟩).2
    ∧ SwapEvent.httpSwap ∈
      (swap_tokens_1inch
        ⟨"0xEeeeeEeeeEeEeeEeEeEeeEEEeeeeEeeeeeeeEEeE", "0xToken", "0",
          "ethereum", 1⟩
        ⟨some "APIKEY", some "ab", fun _ => some "0xA11CE", .ok "0xSpender",
          .ok ⟨some ⟨some "0xDEX", some "0xCALLDATA", some "0", none⟩,
            "123", some "USDC", some 6⟩, .ok "0xHASH"⟩).2 := by
  have hschema : swapInputSchemaOk
      ⟨"0xEeeeeEeeeEeEeeEeEeEeeEEEeeeeEeeeeeeeEEeE", "0xToken", "0",
        "ethereum", 1⟩ = true := by
    simp only [swapInputSchemaOk, Bool.and_eq_true, decide_eq_true_eq]
    norm_num
  have htr : swap_tokens_1inch
      ⟨"0xEeeeeEeeeEeEeeEeEeEeeEEEeeeeEeeeeeeeEEeE", "0xToken", "0",
        "ethereum", 1⟩
      ⟨some "APIKEY", some "ab", fun _ => some "0xA11CE", .ok "0xSpender",
        .ok ⟨some ⟨some "0xDEX", some "0xCALLDATA", some "0", none⟩,
          "123", some "USDC", some 6⟩, .ok "0xHASH"⟩
      = (.success "0xHASH",
          [.httpSpender, .delayMs 1100, .httpSwap, .sendTransaction]) := by
    unfold swap_tokens_1inch
    rw [if_pos hschema]
    rfl
  refine ⟨hschema, ?_, ?_⟩ <;> rw [htr] <;> decide

/-- Witness for the amended C4: slippage `-1` is rejected with an empty
trace. -/
theorem c4_slippage_rejected_before_http_witness :
    swap_tokens_1inch ⟨"0xA", "0xB", "1000", "ethereum", -1⟩
      ⟨some "APIKEY", some "ab", fun _ => some "0xA11CE", .ok "0xSpender",
        .error "unreached", .error "unreached"⟩ = (.schemaError, []) :=
  c4_slippage_rejected_before_http _ _ (Or.inl (by norm_num))

/-- **C8.** If the aggregator's swap-quote response lacks the `tx` object
or any of `tx.to`, `tx.data`, `tx.value`, the call fails with the
malformed-quote error and no transaction is submitted (the trace contains
no submission event). -/
theorem c8_malformed_quote_not_submitted (inp : SwapInput) (env : SwapEnv)
    (ak k sp : String) (resp : SwapResponseData)
    (hs : swapInputSchemaOk inp = true)
    (hok : env.oneinchApiKey = some ak)
    (hwk : env.walletPrivateKey = some k)
    (hch : (getChain inp.network).isSome = true)
    (hac : (env.account (formattedKey k)).isSome = true)
    (hsp : env.spenderResult = .ok sp)
    (hsw : env.swapResult = .ok resp)
    (hmiss : resp.tx = none ∨ ∃ t, resp.tx = some t ∧
      (t.toAddr = none ∨ t.callData = none ∨ t.value = none)) :
    swap_tokens_1inch inp env
      = (.errorResult "Invalid swap data received from 1inch (missing tx fields).",
          [.httpSpender, .delayMs 1100, .httpSwap])
    ∧ SwapEvent.sendTransaction ∉ (swap_tokens_1inch inp env).2 := by
  obtain ⟨chain, hch⟩ := Option.isSome_iff_exists.mp hch
  obtain ⟨addr, hac⟩ := Option.isSome_iff_exists.mp hac
  have hres : swap_tokens_1inch inp env
      = (.errorResult "Invalid swap data received from 1inch (missing tx fields).",
          [.httpSpender, .delayMs 1100, .httpSwap]) := by
    unfold swap_tokens_1inch
    rw [if_pos hs, hok, hwk, hch]
    dsimp only
    rw [hac, hsp, hsw]
    dsimp only
    rcases hmiss with htx | ⟨t, htx, hft⟩
    · rw [htx]
    · rw [htx]
      dsimp only
      have hcond : (strFalsy t.toAddr || strFalsy t.callData
          || t.value == none) = true := by
        rcases hft with hft | hft | hft <;> simp [strFalsy, hft]
      rw [if_pos hcond]
  refine ⟨hres, ?_⟩
  rw [hres]
  decide

/-- Witness for C8: a response whose `tx` lacks `to`. -/
theorem c8_malformed_quote_not_submitted_witness :
    swap_tokens_1inch ⟨"0xA", "0xB", "1000", "ethereum", 1⟩
      ⟨some "APIKEY", some "ab", fun _ => some "0xA11CE", .ok "0xSpender",
        .ok ⟨some ⟨none, some "0xCALLDATA", some "0", none⟩,
          "123", some "USDC", some 6⟩, .ok "0xHASH"⟩
      = (.errorResult "Invalid swap data received from 1inch (missing tx fields).",
          [.httpSpender, .delayMs 1100, .httpSwap]) :=
  (c8_malformed_quote_not_submitted ⟨"0xA", "0xB", "1000", "ethereum", 1⟩
    ⟨some "APIKEY", some "ab", fun _ => some "0xA11CE", .ok "0xSpender",
      .ok ⟨some ⟨none, some "0xCALLDATA", some "0", none⟩,
        "123", some "USDC", some 6⟩, .ok "0xHASH"⟩
    "APIKEY" "ab" "0xSpender"
    ⟨some ⟨none, some "0xCALLDATA", some "0", none⟩, "123", some "USDC", some 6⟩
    (by simp only [swapInputSchemaOk, Bool.and_eq_true, decide_eq_true_eq]
        norm_num)
    rfl rfl (by decide) rfl rfl rfl
    (Or.inr ⟨⟨none, some "0xCALLDATA", some "0", none⟩, rfl, Or.inl rfl⟩)).1

/-- **C9.** Every swap invocation waits at most once; any wait in the
trace is the fixed 1100 ms delay and sits exactly between the spender
lookup and the swap-quote HTTP request; and whenever the swap-quote
request happens at all, the single wait did precede it. -/
theorem c9_single_bounded_delay (inp : SwapInput) (env : SwapEnv) :
    ((swap_tokens_1inch inp env).2.filter isDelayEvent).length ≤ 1
    ∧ (∀ ms, SwapEvent.delayMs ms ∈ (swap_tokens_1inch inp env).2 →
        ms = 1100 ∧ ∃ rest, (swap_tokens_1inch inp env).2
          = .httpSpender :: .delayMs 1100 :: .httpSwap :: rest)
    ∧ (SwapEvent.httpSwap ∈ (swap_tokens_1inch inp env).2 →
        ∃ rest, (swap_tokens_1inch inp env).2
          = .httpSpender :: .delayMs 1100 :: .httpSwap :: rest) := by
  rcases swap_trace_cases inp env with h | h | h | h <;> rw [h] <;>
    refine ⟨by decide, ?_, ?_⟩
  · intro ms hm; exact absurd hm (List.not_mem_nil _)
  · intro hm; exact absurd hm (List.not_mem_nil _)
  · intro ms hm; simp at hm
  · intro hm; simp at hm
  · intro ms hm
    simp at hm
    exact ⟨hm, [], rfl⟩
  · intro hm; exact ⟨[], rfl⟩
  · intro ms hm
    simp at hm
    exact ⟨hm, [.sendTransaction], rfl⟩
  · intro hm; exact ⟨[.sendTransaction], rfl⟩

/-- Witness for C9 on a fully successful swap environment: the delay is
present exactly once, in place. -/
theorem c9_single_bounded_delay_witness :
    SwapEvent.delayMs 1100 ∈
      (swap_tokens_1inch ⟨"0xA", "0xB", "1000", "ethereum", 1⟩
        ⟨some "APIKEY", some "ab", fun _ => some "0xA11CE", .ok "0xSpender",
          .ok ⟨some ⟨some "0xDEX", some "0xCALLDATA", some "0", none⟩,
            "123", some "USDC", some 6⟩, .ok "0xHASH"⟩).2
    ∧ ((1100 : Nat) = 1100 ∧ ∃ rest,
      (swap_tokens_1inch ⟨"0xA", "0xB", "1000", "ethereum", 1⟩
        ⟨some "APIKEY", some "ab", fun _ => some "0xA11CE", .ok "0xSpender",
          .ok ⟨some ⟨some "0xDEX", some "0xCALLDATA", some "0", none⟩,
            "123", some "USDC", some 6⟩, .ok "0xHASH"⟩).2
        = .httpSpender :: .delayMs 1100 :: .httpSwap :: rest) := by
  have hschema : swapInputSchemaOk ⟨"0xA", "0xB", "1000", "ethereum", 1⟩
      = true := by
    simp only [swapInputSchemaOk, Bool.and_eq_true, decide_eq_true_eq]
    norm_num
  have htr : (swap_tokens_1inch ⟨"0xA", "0xB", "1000", "ethereum", 1⟩
      ⟨some "APIKEY", some "ab", fun _ => some "0xA11CE", .ok "0xSpender",
        .ok ⟨some ⟨some "0xDEX", some "0xCALLDATA", some "0", none⟩,
          "123", some "USDC", some 6⟩, .ok "0xHASH"⟩).2
      = [.httpSpender, .delayMs 1100, .httpSwap, .sendTransaction] := by
    unfold swap_tokens_1inch
    rw [if_pos hschema]
    rfl
  have hmem : SwapEvent.delayMs 1100 ∈
      (swap_tokens_1inch ⟨"0xA", "0xB", "1000", "ethereum", 1⟩
        ⟨some "APIKEY", some "ab", fun _ => some "0xA11CE", .ok "0xSpender",
          .ok ⟨some ⟨some "0xDEX", some "0xCALLDATA", some "0", none⟩,
            "123", some "USDC", some 6⟩, .ok "0xHASH"⟩).2 := by
    rw [htr]; decide
  exact ⟨hmem,
    (c9_single_bounded_delay ⟨"0xA", "0xB", "1000", "ethereum", 1⟩
      ⟨some "APIKEY", some "ab", fun _ => some "0xA11CE", .ok "0xSpender",
        .ok ⟨some ⟨some "0xDEX", some "0xCALLDATA", some "0", none⟩,
          "123", some "USDC", some 6⟩, .ok "0xHASH"⟩).2.1 1100 hmem⟩

/-! ### Key-normalization theorems -/

theorem strStartsWith_append_0x (k : String) :
    strStartsWith ("0x" ++ k) "0x" = true := by
  unfold strStartsWith
  have hdata : ("0x" ++ k).toList = '0' :: 'x' :: k.toList := by
    show ("0x" ++ k).data = '0' :: 'x' :: k.data
    rw [String.data_append]
    rfl
  rw [hdata]
  show List.isPrefixOf ['0', 'x'] ('0' :: 'x' :: k.toList) = true
  simp [List.isPrefixOf]

theorem formattedKey_of_bare (k : String) (h : strStartsWith k "0x" = false) :
    formattedKey k = "0x" ++ k := by
  simp [formattedKey, h]

theorem formattedKey_of_prefixed (k : String) :
    formattedKey ("0x" ++ k) = "0x" ++ k := by
  simp [formattedKey, strStartsWith_append_0x]

/-- **C10.** For every key `k` without the `0x` marker, the operations
that accept a private key behave identically on `k` and on `"0x" ++ k`:
the shared normalization maps both to the same formatted key, and the
`getPrivateKey` config reader, the bridge handler, the swap handler and
`transferETH` are all insensitive to the difference. -/
theorem c10_key_prefix_insensitive (k : String)
    (h : strStartsWith k "0x" = false) :
    formattedKey k = formattedKey ("0x" ++ k)
    ∧ getPrivateKey (some k) = getPrivateKey (some ("0x" ++ k))
    ∧ (∀ input q a ev ex,
        bridge_native_eth_across input ⟨some k, q, a, ev, ex⟩
          = bridge_native_eth_across input ⟨some ("0x" ++ k), q, a, ev, ex⟩)
    ∧ (∀ inp ok a sp sw sr,
        swap_tokens_1inch inp ⟨ok, some k, a, sp, sw, sr⟩
          = swap_tokens_1inch inp ⟨ok, some ("0x" ++ k), a, sp, sw, sr⟩)
    ∧ (∀ toA amt env, transferETH k toA amt env
        = transferETH ("0x" ++ k) toA amt env) := by
  have hk : formattedKey k = formattedKey ("0x" ++ k) := by
    rw [formattedKey_of_bare k h, formattedKey_of_prefixed k]
  refine ⟨hk, ?_, ?_, ?_, ?_⟩
  · simp [getPrivateKey, h, strStartsWith_append_0x]
  · intro input q a ev ex
    simp only [bridge_native_eth_across, hk]
  · intro inp ok a sp sw sr
    simp only [swap_tokens_1inch, hk]
  · intro toA amt env
    simp only [transferETH, hk]

/-- Witness for C10 at the bare key `"abc"`. -/
theorem c10_key_prefix_insensitive_witness :
    strStartsWith "abc" "0x" = false
    ∧ formattedKey "abc" = formattedKey ("0x" ++ "abc")
    ∧ getPrivateKey (some "abc") = getPrivateKey (some ("0x" ++ "abc")) :=
  ⟨by decide, (c10_key_prefix_insensitive "abc" (by decide)).1,
   (c10_key_prefix_insensitive "abc" (by decide)).2.1⟩

example : toBaseUnits "1.50" 2 = some 150 := by decide
example : toBaseUnits "1.234" 2 = none := by decide
example : toBaseUnits "-1" 2 = none := by decide
example : toBaseUnits "abc" 2 = none := by decide
example : toBaseUnits "1.2.3" 2 = none := by decide
example : toHumanUnits 150 2 = "1.5" := by decide
example : toHumanUnits 0 2 = "0" := by decide
example : canonicalForm "1.50" = "1.5" := by decide
example : canonicalForm "007.10" = "7.1" := by decide

end BlockChat
